import Mathlib

/-!
Verification development for the lok_wasm puzzle engine.

The repository ships the presentation glue (src/www/index.js and its
evolutionary snapshots) calling into a `Board` engine compiled to wasm; the
engine sources themselves are not in the tree, so the engine is modelled here
from the specification (spec.md), while the presentation-layer branching on
`commit_and_check_solution`'s result is embedded from src/www/index.js.

Puzzle text is modelled as a list of characters; machine strings are
sequences of characters, so this is a faithful shallow embedding.
-/

namespace Lok

/-- Decidable equality on `Except`, so results of fallible operations can be
compared on concrete inputs. -/
instance instDecEqExcept {ε α : Type} [DecidableEq ε] [DecidableEq α] :
    DecidableEq (Except ε α) := fun x y =>
  match x, y with
  | .ok a, .ok b =>
    if h : a = b then isTrue (by rw [h])
    else isFalse (by intro hc; cases hc; exact h rfl)
  | .error a, .error b =>
    if h : a = b then isTrue (by rw [h])
    else isFalse (by intro hc; cases hc; exact h rfl)
  | .ok _, .error _ => isFalse (by intro hc; cases hc)
  | .error _, .ok _ => isFalse (by intro hc; cases hc)

abbrev Text := List Char

/-- Modelled from the spec (§3 CellOverlay): per-Letter-cell mutable overlay:
blackened flag (default false), path-mark count (default 0, marked ⇔ count > 0),
and the current letter (initially the parsed letter). -/
structure CellOverlay where
  blackened : Bool
  pathMarkCount : Nat
  currentLetter : Char
deriving DecidableEq, Repr

/-- Modelled from the spec (§3 CellKind): a cell is an interactive Letter cell
(carrying its overlay) or a non-interactive Blocked cell. The Blocked
constructor records the filler character it was parsed from, which is purely
structural data needed to re-serialize the board text (§8 round-trip). -/
inductive Cell where
  | blocked (fill : Char)
  | letter (ov : CellOverlay)
deriving DecidableEq, Repr

/-- Modelled from the spec (§7 error taxonomy): construction-time
MalformedPuzzleError, OutOfRangeError for invalid coordinates, and
NotInteractiveError for mutations aimed at a Blocked cell. -/
inductive BoardError where
  | malformedPuzzle
  | outOfRange
  | notInteractive
deriving DecidableEq, Repr

/-- Modelled from the spec (§3 BoardCellView): an immutable, independent
snapshot of one cell's externally visible state. For Blocked cells all fields
are fixed defaults and the display letter is absent. -/
structure BoardCellView where
  isInteractive : Bool
  isBlackened : Bool
  isMarkedForPath : Bool
  markCount : Nat
  displayLetter : Option Char
deriving DecidableEq, Repr

/-- Modelled from the spec (§3 HistoryEntry): the target coordinate and the
overlay field values immediately before one mutation. -/
structure HistoryEntry where
  row : Nat
  col : Nat
  prior : CellOverlay
deriving DecidableEq, Repr

/-- Modelled from the spec (§3 Grid/Board): dimensions, the row-major cell
array (each Letter cell holding its overlay, so the overlay map's key set is
by construction exactly the Letter coordinates), and the history stack. -/
structure Board where
  width : Nat
  height : Nat
  cells : List (List Cell)
  history : List HistoryEntry
deriving DecidableEq, Repr

/-- Modelled from the spec (§4.1, §6, §9): the fixed alphabet maps uppercase
letters to Letter cells and the filler symbols observed in the repository's
sample puzzles (underscore, space, hyphen) to Blocked cells; any other
character maps to no known CellKind. A fresh Letter overlay is unblackened,
unmarked, and shows the parsed letter. -/
def charToCell (c : Char) : Option Cell :=
  if 'A' ≤ c ∧ c ≤ 'Z' then some (.letter ⟨false, 0, c⟩)
  else if c = '_' ∨ c = ' ' ∨ c = '-' then some (.blocked c)
  else none

/-- Modelled from the spec (§6): rows of the puzzle text are separated by the
line-break character. Splitting never yields an empty row list. -/
def splitLines : Text → List Text
  | [] => [[]]
  | c :: rest =>
    if c = '\n' then [] :: splitLines rest
    else
      match splitLines rest with
      | [] => [[c]]
      | l :: ls => (c :: l) :: ls

/-- Inverse of `splitLines`: interleave the line-break character between rows. -/
def joinLines : List Text → Text
  | [] => []
  | [l] => l
  | l :: l2 :: ls => l ++ '\n' :: joinLines (l2 :: ls)

/-- Modelled from the spec (§4.1): translate one row of characters, failing on
any character that maps to no known CellKind. -/
def parseRow : Text → Option (List Cell)
  | [] => some []
  | c :: rest =>
    match charToCell c, parseRow rest with
    | some k, some ks => some (k :: ks)
    | _, _ => none

/-- Translate every row of the puzzle text. -/
def parseRows : List Text → Option (List (List Cell))
  | [] => some []
  | r :: rs =>
    match parseRow r, parseRows rs with
    | some cr, some crs => some (cr :: crs)
    | _, _ => none

/-- Modelled from the spec (§4.1, §6 Board construction): `Board.fromText`
fails with MalformedPuzzleError when the first row is empty, when any row
length differs from the first row's length, or when a character maps to no
known CellKind; otherwise it yields the Board with fresh overlays and an empty
history stack. -/
def Board.fromText (t : Text) : Except BoardError Board :=
  if ((splitLines t).headD []).length = 0 then .error .malformedPuzzle
  else if (splitLines t).any
      (fun r => r.length != ((splitLines t).headD []).length) then
    .error .malformedPuzzle
  else
    match parseRows (splitLines t) with
    | none => .error .malformedPuzzle
    | some cells =>
      .ok ⟨((splitLines t).headD []).length, (splitLines t).length, cells, []⟩

/-- Re-serialize one cell: a Letter cell shows its current letter, a Blocked
cell its filler character. -/
def serializeCell : Cell → Char
  | .blocked fill => fill
  | .letter ov => ov.currentLetter

/-- Modelled from the spec (§8): re-serialize the overlay state back to
puzzle text. -/
def Board.serialize (b : Board) : Text :=
  joinLines (b.cells.map (fun row => row.map serializeCell))

/-- Whether a cell is a Letter cell. -/
def Cell.isLetter : Cell → Bool
  | .letter _ => true
  | .blocked _ => false

/-- Whether a cell is a Blocked cell. -/
def Cell.isBlocked : Cell → Bool
  | .blocked _ => true
  | .letter _ => false

/-- The current letter of a Letter cell, if any. -/
def Cell.letterChar : Cell → Option Char
  | .letter ov => some ov.currentLetter
  | .blocked _ => none

/-- Look up the cell at a coordinate; `none` means out of range. -/
def Board.cellAt (b : Board) (r c : Nat) : Option Cell :=
  (b.cells[r]?).bind (fun row => row[c]?)

/-- Modelled from the spec (§4.2): `get` fails with OutOfRangeError on invalid
coordinates; a Blocked cell yields the fixed default view, a Letter cell a
snapshot of its overlay. -/
def Board.get (b : Board) (r c : Nat) : Except BoardError BoardCellView :=
  match b.cellAt r c with
  | none => .error .outOfRange
  | some (.blocked _) => .ok ⟨false, false, false, 0, none⟩
  | some (.letter ov) =>
    .ok ⟨true, ov.blackened, decide (0 < ov.pathMarkCount), ov.pathMarkCount,
      some ov.currentLetter⟩

/-- Replace the overlay of the Letter cell at a coordinate (no-op when the row
is out of range). -/
def Board.setOverlay (b : Board) (r c : Nat) (ov : CellOverlay) : Board :=
  match b.cells[r]? with
  | none => b
  | some row => { b with cells := b.cells.set r (row.set c (.letter ov)) }

/-- Modelled from the spec (§4.3 shared mutation shape): validate coordinates
and cell kind, fail with OutOfRangeError or NotInteractiveError without
touching any state, otherwise capture the pre-mutation overlay into a new
HistoryEntry, apply the change, and push the entry. -/
def Board.mutate (b : Board) (r c : Nat) (f : CellOverlay → CellOverlay) :
    Except BoardError Board :=
  match b.cellAt r c with
  | none => .error .outOfRange
  | some (.blocked _) => .error .notInteractive
  | some (.letter ov) =>
    .ok { b.setOverlay r c (f ov) with history := ⟨r, c, ov⟩ :: b.history }

/-- Modelled from the spec (§4.3): `blacken` toggles the blackened flag. -/
def Board.blacken (b : Board) (r c : Nat) : Except BoardError Board :=
  b.mutate r c (fun ov => { ov with blackened := !ov.blackened })

/-- Modelled from the spec (§4.3): `markPath` increments the path-mark count
by one, with no upper bound. -/
def Board.markPath (b : Board) (r c : Nat) : Except BoardError Board :=
  b.mutate r c (fun ov => { ov with pathMarkCount := ov.pathMarkCount + 1 })

/-- Modelled from the spec (§4.3): `changeLetter` overwrites the current
letter. -/
def Board.changeLetter (b : Board) (r c : Nat) (ch : Char) :
    Except BoardError Board :=
  b.mutate r c (fun ov => { ov with currentLetter := ch })

/-- Modelled from the spec (§4.4): `undo` on an empty stack is a no-op,
otherwise it pops the most recent entry and restores exactly the recorded
overlay at the recorded coordinate. -/
def Board.undo (b : Board) : Board :=
  match b.history with
  | [] => b
  | e :: rest => { b.setOverlay e.row e.col e.prior with history := rest }

/-- Collect the overlay snapshot entries of one row, with coordinates. -/
def overlayEntries (r c : Nat) : List Cell → List (Nat × Nat × CellOverlay)
  | [] => []
  | .blocked _ :: rest => overlayEntries r (c + 1) rest
  | .letter ov :: rest => (r, c, ov) :: overlayEntries r (c + 1) rest

/-- Collect the overlay snapshot entries of all rows. -/
def snapshotRows (r : Nat) : List (List Cell) → List (Nat × Nat × CellOverlay)
  | [] => []
  | row :: rest => overlayEntries r 0 row ++ snapshotRows (r + 1) rest

/-- Modelled from the spec (§6 Verifier interface): the snapshot passed to the
Verifier holds, for every Letter cell, its coordinate and overlay (current
letter, blackened flag, path-mark count). -/
def Board.snapshot (b : Board) : List (Nat × Nat × CellOverlay) :=
  snapshotRows 0 b.cells

/-- Modelled from the spec (§4.5): the commit takes an immutable snapshot of
every Letter cell's overlay, passes it to the opaque Verifier, and forwards
the verdict unchanged (`none` is the success sentinel, `some d` an opaque
failure detail); the Board state is left exactly as it was. -/
def Board.commit_and_check_solution {F : Type} (b : Board)
    (verify : List (Nat × Nat × CellOverlay) → Option F) : Option F × Board :=
  (verify b.snapshot, b)

/-- Modelled from the spec (§4.3, §7): a mutation target is invalid when the
coordinate is out of range or designates a Blocked cell. -/
def Board.invalidTarget (b : Board) (r c : Nat) : Bool :=
  match b.cellAt r c with
  | none => true
  | some (.blocked _) => true
  | some (.letter _) => false

/-- The error a mutation reports for an invalid target: OutOfRangeError when
the coordinate is out of range, NotInteractiveError when it designates a
Blocked cell. -/
def Board.targetError (b : Board) (r c : Nat) : BoardError :=
  match b.cellAt r c with
  | none => .outOfRange
  | _ => .notInteractive

/-- Well-formedness of puzzle text, phrased on the text itself: a positive
first-row length, every row of that same length, and every character mapping
to a known CellKind. -/
def wellFormedText (t : Text) : Bool :=
  decide (0 < ((splitLines t).headD []).length) &&
    (splitLines t).all (fun r =>
      r.length == ((splitLines t).headD []).length &&
        r.all (fun c => (charToCell c).isSome))

/-- Iterate `markPath` at one coordinate. -/
def Board.markPathN (b : Board) (r c : Nat) : Nat → Except BoardError Board
  | 0 => .ok b
  | n + 1 => (b.markPathN r c n).bind (fun b2 => b2.markPath r c)

/-- Iterate `undo`. -/
def Board.undoN (b : Board) : Nat → Board
  | 0 => b
  | n + 1 => (b.undoN n).undo

/-- Snapshot of the DOM result display as written by the presentation layer:
its class attribute and text content. From src/www/index.js. -/
structure ResultDisplay where
  className : Option String
  textContent : String
deriving DecidableEq, Repr

/-- From src/www/index.js `onClickCheckSolution` (identical in all three
snapshots): the handler branches solely on whether the commit result equals
null — null paints the success display, any non-null result the failure
display. `Option.isNone` embeds the JS comparison `result == null`. -/
def onClickCheckSolution {F : Type} (result : Option F) : ResultDisplay :=
  if result.isNone then ⟨some "result_success", "YAY"⟩
  else ⟨some "result_fail", "NAY"⟩

/-- Modelled from the spec (§3 BoardCellView, §9): the presentation layer
holds the Board and an owned, independent view copy; whatever it does to its
copy touches only the copy, never the engine state. -/
structure ViewSession where
  board : Board
  view : BoardCellView

/-- Modelled from the spec (§9): a presentation-layer mutation of a held view
rewrites only the held copy. -/
def ViewSession.mutateView (s : ViewSession) (f : BoardCellView → BoardCellView) :
    ViewSession :=
  ⟨s.board, f s.view⟩

/-- The example board of the spec's concrete scenario (§8), as produced by
parsing "LO_\nL_O". -/
def exampleText : Text := ['L', 'O', '_', '\n', 'L', '_', 'O']

/-- The parsed form of `exampleText`. -/
def exampleBoard : Board :=
  ⟨3, 2,
    [[.letter ⟨false, 0, 'L'⟩, .letter ⟨false, 0, 'O'⟩, .blocked '_'],
     [.letter ⟨false, 0, 'L'⟩, .blocked '_', .letter ⟨false, 0, 'O'⟩]],
    []⟩

/-- The sample board after one blacken call at (0,0). -/
def exampleBoardB1 : Board :=
  ⟨3, 2,
    [[.letter ⟨true, 0, 'L'⟩, .letter ⟨false, 0, 'O'⟩, .blocked '_'],
     [.letter ⟨false, 0, 'L'⟩, .blocked '_', .letter ⟨false, 0, 'O'⟩]],
    [⟨0, 0, ⟨false, 0, 'L'⟩⟩]⟩

/-- The sample board after two blacken calls at (0,0). -/
def exampleBoardB2 : Board :=
  ⟨3, 2,
    [[.letter ⟨false, 0, 'L'⟩, .letter ⟨false, 0, 'O'⟩, .blocked '_'],
     [.letter ⟨false, 0, 'L'⟩, .blocked '_', .letter ⟨false, 0, 'O'⟩]],
    [⟨0, 0, ⟨true, 0, 'L'⟩⟩, ⟨0, 0, ⟨false, 0, 'L'⟩⟩]⟩

/-! Helper lemmas about lists. -/

/-- Setting an index to the value it already holds leaves the list unchanged. -/
theorem list_set_of_getElem? {α : Type} (l : List α) (i : Nat) (a : α)
    (h : l[i]? = some a) : l.set i a = l := by
  induction l generalizing i with
  | nil => simp at h
  | cons x xs ih =>
    cases i with
    | zero =>
      simp only [List.getElem?_cons_zero, Option.some.injEq] at h
      simp [List.set, h]
    | succ n =>
      simp only [List.getElem?_cons_succ] at h
      simp [List.set, ih n h]

/-- Setting an index that is in range makes the lookup return the new value. -/
theorem list_getElem?_set_of_some {α : Type} (l : List α) (i : Nat) (a x : α)
    (h : l[i]? = some x) : (l.set i a)[i]? = some a := by
  rw [List.getElem?_set_self']
  rw [h]
  rfl

/-- The total length of a flattened list whose rows all have length `w`. -/
theorem flatten_length_const {α : Type} (L : List (List α)) (w : Nat)
    (h : ∀ l ∈ L, l.length = w) : L.flatten.length = L.length * w := by
  induction L with
  | nil => simp
  | cons l ls ih =>
    simp only [List.flatten_cons, List.length_append, List.length_cons]
    rw [h l (by simp), ih (fun l2 hl2 => h l2 (by simp [hl2])), Nat.succ_mul,
      Nat.add_comm]

/-! Lemmas about splitting and joining puzzle text. -/

/-- Splitting text into rows never yields an empty row list. -/
theorem splitLines_ne_nil (t : Text) : splitLines t ≠ [] := by
  induction t with
  | nil => simp [splitLines]
  | cons c rest ih =>
    simp only [splitLines]
    split
    · simp
    · rcases hs : splitLines rest with _ | ⟨l, ls⟩ <;> simp [hs]

/-- Joining the split rows reproduces the original text. -/
theorem joinLines_splitLines (t : Text) : joinLines (splitLines t) = t := by
  induction t with
  | nil => rfl
  | cons c rest ih =>
    simp only [splitLines]
    by_cases hc : c = '\n'
    · subst hc
      rw [if_pos rfl]
      rcases hs : splitLines rest with _ | ⟨l, ls⟩
      · exact absurd hs (splitLines_ne_nil rest)
      · rw [hs] at ih
        simpa [joinLines] using ih
    · rw [if_neg hc]
      rcases hs : splitLines rest with _ | ⟨l, ls⟩
      · exact absurd hs (splitLines_ne_nil rest)
      · rw [hs] at ih
        cases ls with
        | nil =>
          simp only [joinLines] at ih
          simp [joinLines, ih]
        | cons l2 ls2 =>
          simp only [joinLines] at ih
          simp only [joinLines, List.cons_append, ih]

/-- Rows produced by splitting contain no line-break character. -/
theorem splitLines_no_newline (t : Text) : ∀ l ∈ splitLines t, '\n' ∉ l := by
  induction t with
  | nil =>
    intro l hl
    simp [splitLines] at hl
    simp [hl]
  | cons c rest ih =>
    intro l hl
    simp only [splitLines] at hl
    by_cases hc : c = '\n'
    · rw [if_pos hc] at hl
      rw [List.mem_cons] at hl
      rcases hl with hl | hl
      · simp [hl]
      · exact ih l hl
    · rw [if_neg hc] at hl
      rcases hs : splitLines rest with _ | ⟨l0, ls⟩
      · exact absurd hs (splitLines_ne_nil rest)
      · rw [hs, List.mem_cons] at hl
        rcases hl with hl | hl
        · subst hl
          intro hmem
          rw [List.mem_cons] at hmem
          rcases hmem with hmem | hmem
          · exact hc hmem.symm
          · exact ih l0 (by rw [hs]; exact List.mem_cons_self l0 ls) hmem
        · exact ih l (by rw [hs]; exact List.mem_cons_of_mem l0 hl)

/-- Filtering the line-break separators out of joined rows yields the
concatenation of the rows. -/
theorem filter_ne_newline_joinLines (rows : List Text)
    (h : ∀ l ∈ rows, '\n' ∉ l) :
    (joinLines rows).filter (fun c => c != '\n') = rows.flatten := by
  induction rows with
  | nil => rfl
  | cons l ls ih =>
    have hl : l.filter (fun c => c != '\n') = l := by
      refine List.filter_eq_self.2 fun a ha => ?_
      have : a ≠ '\n' := fun he => h l (by simp) (he ▸ ha)
      simpa using this
    cases ls with
    | nil => simpa [joinLines] using hl
    | cons l2 ls2 =>
      have ih2 := ih (fun l3 hl3 => h l3 (List.mem_cons_of_mem l hl3))
      simp only [joinLines, List.flatten_cons, List.filter_append,
        List.filter_cons]
      rw [hl, ih2]
      norm_num

/-! Lemmas about the cell alphabet and row parsing. -/

/-- A successfully parsed character serializes back to itself. -/
theorem charToCell_serialize {c : Char} {k : Cell} (h : charToCell c = some k) :
    serializeCell k = c := by
  unfold charToCell at h
  split at h
  · rw [Option.some.injEq] at h
    subst h
    rfl
  · split at h
    · rw [Option.some.injEq] at h
      subst h
      rfl
    · simp at h

/-- A Letter cell produced by the alphabet is fresh: unblackened and
unmarked. -/
theorem charToCell_fresh {c : Char} {ov : CellOverlay}
    (h : charToCell c = some (.letter ov)) :
    ov.blackened = false ∧ ov.pathMarkCount = 0 := by
  unfold charToCell at h
  split at h
  · rw [Option.some.injEq, Cell.letter.injEq] at h
    subst h
    exact ⟨rfl, rfl⟩
  · split at h
    · simp at h
    · simp at h

/-- A parsed row has as many cells as the row has characters. -/
theorem parseRow_length {r : Text} {ks : List Cell} (h : parseRow r = some ks) :
    ks.length = r.length := by
  induction r generalizing ks with
  | nil =>
    simp only [parseRow, Option.some.injEq] at h
    subst h
    rfl
  | cons c rest ih =>
    simp only [parseRow] at h
    cases hc : charToCell c <;> rw [hc] at h
    · simp at h
    · cases hr : parseRow rest <;> rw [hr] at h
      · simp at h
      · rw [Option.some.injEq] at h
        subst h
        simp [ih hr]

/-- A parsed row serializes back to the original characters. -/
theorem parseRow_serialize {r : Text} {ks : List Cell}
    (h : parseRow r = some ks) : ks.map serializeCell = r := by
  induction r generalizing ks with
  | nil =>
    simp only [parseRow, Option.some.injEq] at h
    subst h
    rfl
  | cons c rest ih =>
    simp only [parseRow] at h
    cases hc : charToCell c <;> rw [hc] at h
    · simp at h
    · cases hr : parseRow rest <;> rw [hr] at h
      · simp at h
      · rw [Option.some.injEq] at h
        subst h
        simp [ih hr, charToCell_serialize hc]

/-- Every Letter cell of a parsed row is fresh. -/
theorem parseRow_fresh {r : Text} {ks : List Cell} (h : parseRow r = some ks) :
    ∀ ov : CellOverlay, Cell.letter ov ∈ ks →
      ov.blackened = false ∧ ov.pathMarkCount = 0 := by
  induction r generalizing ks with
  | nil =>
    simp only [parseRow, Option.some.injEq] at h
    subst h
    intro ov hov
    simp at hov
  | cons c rest ih =>
    simp only [parseRow] at h
    cases hc : charToCell c <;> rw [hc] at h
    · simp at h
    · cases hr : parseRow rest <;> rw [hr] at h
      · simp at h
      · rw [Option.some.injEq] at h
        subst h
        intro ov hov
        rw [List.mem_cons] at hov
        rcases hov with hov | hov
        · exact charToCell_fresh (hov ▸ hc)
        · exact ih hr ov hov

/-- A row parses exactly when every character maps to a known CellKind. -/
theorem parseRow_isSome_iff (r : Text) :
    (parseRow r).isSome = r.all (fun c => (charToCell c).isSome) := by
  induction r with
  | nil => rfl
  | cons c rest ih =>
    simp only [parseRow, List.all_cons]
    cases hc : charToCell c
    · simp
    · cases hr : parseRow rest
      · rw [hr] at ih
        simp [← ih]
      · rw [hr] at ih
        simp [← ih]

/-- The rows parse exactly when every row's characters all map to known
CellKinds. -/
theorem parseRows_isSome_iff (rows : List Text) :
    (parseRows rows).isSome =
      rows.all (fun r => r.all (fun c => (charToCell c).isSome)) := by
  induction rows with
  | nil => rfl
  | cons r rs ih =>
    simp only [parseRows, List.all_cons]
    rw [← parseRow_isSome_iff]
    cases hr : parseRow r
    · simp
    · cases hrs : parseRows rs
      · rw [hrs] at ih
        simp [← ih]
      · rw [hrs] at ih
        simp [← ih]

/-- Parsed rows serialize back to the original rows. -/
theorem parseRows_serialize {rows : List Text} {cells : List (List Cell)}
    (h : parseRows rows = some cells) :
    cells.map (fun row => row.map serializeCell) = rows := by
  induction rows generalizing cells with
  | nil =>
    simp only [parseRows, Option.some.injEq] at h
    subst h
    rfl
  | cons r rs ih =>
    simp only [parseRows] at h
    cases hr : parseRow r <;> rw [hr] at h
    · simp at h
    · cases hrs : parseRows rs <;> rw [hrs] at h
      · simp at h
      · rw [Option.some.injEq] at h
        subst h
        simp [ih hrs, parseRow_serialize hr]

/-- Parsing keeps the number of rows. -/
theorem parseRows_length {rows : List Text} {cells : List (List Cell)}
    (h : parseRows rows = some cells) : cells.length = rows.length := by
  induction rows generalizing cells with
  | nil =>
    simp only [parseRows, Option.some.injEq] at h
    subst h
    rfl
  | cons r rs ih =>
    simp only [parseRows] at h
    cases hr : parseRow r <;> rw [hr] at h
    · simp at h
    · cases hrs : parseRows rs <;> rw [hrs] at h
      · simp at h
      · rw [Option.some.injEq] at h
        subst h
        simp [ih hrs]

/-- Every Letter cell of parsed rows is fresh. -/
theorem parseRows_fresh {rows : List Text} {cells : List (List Cell)}
    (h : parseRows rows = some cells) :
    ∀ row ∈ cells, ∀ ov : CellOverlay, Cell.letter ov ∈ row →
      ov.blackened = false ∧ ov.pathMarkCount = 0 := by
  induction rows generalizing cells with
  | nil =>
    simp only [parseRows, Option.some.injEq] at h
    subst h
    intro row hrow
    simp at hrow
  | cons r rs ih =>
    simp only [parseRows] at h
    cases hr : parseRow r <;> rw [hr] at h
    · simp at h
    · cases hrs : parseRows rs <;> rw [hrs] at h
      · simp at h
      · rw [Option.some.injEq] at h
        subst h
        intro row hrow
        rw [List.mem_cons] at hrow
        rcases hrow with hrow | hrow
        · exact hrow ▸ parseRow_fresh hr
        · exact ih hrs row hrow

/-! Lemmas about Board construction. -/

/-- Well-formed text has a positive first-row length. -/
theorem wellFormed_pos {t : Text} (h : wellFormedText t = true) :
    0 < ((splitLines t).headD []).length := by
  unfold wellFormedText at h
  rw [Bool.and_eq_true] at h
  exact of_decide_eq_true h.1

/-- In well-formed text every row has the first row's length. -/
theorem wellFormed_row_length {t : Text} (h : wellFormedText t = true) :
    ∀ r ∈ splitLines t, r.length = ((splitLines t).headD []).length := by
  unfold wellFormedText at h
  rw [Bool.and_eq_true, List.all_eq_true] at h
  intro r hr
  have := h.2 r hr
  rw [Bool.and_eq_true, beq_iff_eq] at this
  exact this.1

/-- In well-formed text every character maps to a known CellKind. -/
theorem wellFormed_chars {t : Text} (h : wellFormedText t = true) :
    (splitLines t).all (fun r => r.all (fun c => (charToCell c).isSome)) =
      true := by
  unfold wellFormedText at h
  rw [Bool.and_eq_true, List.all_eq_true] at h
  rw [List.all_eq_true]
  intro r hr
  have := h.2 r hr
  rw [Bool.and_eq_true] at this
  exact this.2

/-- Construction from well-formed text succeeds with fresh overlays, an empty
history, and the dimensions read off the split rows. -/
theorem fromText_of_wellFormed {t : Text} (h : wellFormedText t = true) :
    ∃ cells, parseRows (splitLines t) = some cells ∧
      Board.fromText t =
        .ok ⟨((splitLines t).headD []).length, (splitLines t).length, cells,
          []⟩ := by
  have hs : (parseRows (splitLines t)).isSome = true := by
    rw [parseRows_isSome_iff]
    exact wellFormed_chars h
  rw [Option.isSome_iff_exists] at hs
  obtain ⟨cells, hp⟩ := hs
  refine ⟨cells, hp, ?_⟩
  unfold Board.fromText
  rw [if_neg (Nat.pos_iff_ne_zero.1 (wellFormed_pos h))]
  have hany : (splitLines t).any
      (fun r => r.length != ((splitLines t).headD []).length) = false := by
    rw [List.any_eq_false]
    intro r hr
    simpa using wellFormed_row_length h r hr
  rw [if_neg (by rw [hany]; exact Bool.false_ne_true)]
  rw [hp]

/-- C6: malformed puzzle text (ragged rows, inconsistent delimiting, or an
unknown character) is rejected at construction time with
MalformedPuzzleError; no board value is produced at all. -/
theorem fromText_malformed_error (t : Text) (h : wellFormedText t = false) :
    Board.fromText t = .error .malformedPuzzle := by
  unfold Board.fromText
  by_cases h0 : ((splitLines t).headD []).length = 0
  · rw [if_pos h0]
  · rw [if_neg h0]
    by_cases hany : (splitLines t).any
        (fun r => r.length != ((splitLines t).headD []).length) = true
    · rw [if_pos hany]
    · rw [if_neg hany]
      cases hp : parseRows (splitLines t)
      · rfl
      · exfalso
        have hwf : wellFormedText t = true := by
          unfold wellFormedText
          rw [Bool.and_eq_true]
          constructor
          · exact decide_eq_true (Nat.pos_of_ne_zero h0)
          · rw [List.all_eq_true]
            intro r hr
            rw [Bool.and_eq_true]
            constructor
            · rw [beq_iff_eq]
              rw [Bool.not_eq_true] at hany
              rw [List.any_eq_false] at hany
              simpa using hany r hr
            · have hall : (splitLines t).all
                  (fun r2 => r2.all (fun c => (charToCell c).isSome)) =
                    true := by
                rw [← parseRows_isSome_iff, hp]
                rfl
              rw [List.all_eq_true] at hall
              exact hall r hr
        rw [hwf] at h
        exact Bool.noConfusion h

/-- C6 witness: the ragged text "AB\nC" is rejected. -/
theorem fromText_malformed_error_witness :
    wellFormedText ['A', 'B', '\n', 'C'] = false ∧
      Board.fromText ['A', 'B', '\n', 'C'] = .error .malformedPuzzle :=
  ⟨by decide, fromText_malformed_error ['A', 'B', '\n', 'C'] (by decide)⟩

/-- C1 (amended): for every well-formed puzzle text, construction succeeds,
width times height equals the number of non-separator (non-newline)
characters of the input, and re-serializing the initial overlay state
reproduces the original text exactly. -/
theorem fromText_roundtrip_and_cell_count (t : Text)
    (h : wellFormedText t = true) :
    (Board.fromText t).map (fun b => (b.width * b.height, b.serialize)) =
      .ok ((t.filter (fun c => c != '\n')).length, t) := by
  obtain ⟨cells, hp, hok⟩ := fromText_of_wellFormed h
  rw [hok]
  have hser : Board.serialize
      ⟨((splitLines t).headD []).length, (splitLines t).length, cells, []⟩ =
        t := by
    unfold Board.serialize
    show joinLines (cells.map (fun row => row.map serializeCell)) = t
    rw [parseRows_serialize hp, joinLines_splitLines]
  have hcount : (t.filter (fun c => c != '\n')).length =
      ((splitLines t).headD []).length * (splitLines t).length := by
    conv =>
      lhs
      rw [← joinLines_splitLines t]
    rw [filter_ne_newline_joinLines (splitLines t) (splitLines_no_newline t)]
    rw [flatten_length_const (splitLines t) ((splitLines t).headD []).length
      (wellFormed_row_length h)]
    exact Nat.mul_comm _ _
  refine congrArg Except.ok ?_
  have h1 : ((t.filter (fun c => c != '\n')).length, t) =
      (((splitLines t).headD []).length * (splitLines t).length,
        Board.serialize ⟨((splitLines t).headD []).length,
          (splitLines t).length, cells, []⟩) := by
    rw [hser, hcount]
  rw [h1]

/-- C1 witness: the sample text "LO_\nL_O" satisfies the amended claim. -/
theorem fromText_roundtrip_and_cell_count_witness :
    wellFormedText exampleText = true ∧
      (Board.fromText exampleText).map
          (fun b => (b.width * b.height, b.serialize)) =
        .ok ((exampleText.filter (fun c => c != '\n')).length, exampleText) :=
  ⟨by decide, fromText_roundtrip_and_cell_count exampleText (by decide)⟩

/-- C1 counterexample: for the well-formed two-row text "AB\nCD" the claim as
stated fails: width times height is 4 while the character count of the input
text is 5 (the row separator is a character of the text). -/
theorem fromText_width_height_ne_raw_length :
    wellFormedText ['A', 'B', '\n', 'C', 'D'] = true ∧
      (Board.fromText ['A', 'B', '\n', 'C', 'D']).map
          (fun b => b.width * b.height) = .ok 4 ∧
      (['A', 'B', '\n', 'C', 'D'] : Text).length = 5 ∧
      (Board.fromText ['A', 'B', '\n', 'C', 'D']).map
          (fun b => b.width * b.height) ≠
        .ok ((['A', 'B', '\n', 'C', 'D'] : Text).length) := by
  refine ⟨by decide, by decide, by decide, ?_⟩
  decide

/-! Lemmas about cell lookup and the shared mutation shape. -/

/-- Unfold a successful cell lookup into its row lookup. -/
theorem cellAt_eq {b : Board} {r c : Nat} {cell : Cell}
    (h : b.cellAt r c = some cell) :
    ∃ row, b.cells[r]? = some row ∧ row[c]? = some cell := by
  unfold Board.cellAt at h
  cases hr : b.cells[r]? <;> rw [hr] at h
  · exact Option.noConfusion h
  · exact ⟨_, rfl, h⟩

/-- Reading a Letter cell yields the snapshot of its overlay. -/
theorem get_of_cellAt_letter {b : Board} {r c : Nat} {ov : CellOverlay}
    (h : b.cellAt r c = some (.letter ov)) :
    b.get r c = .ok ⟨true, ov.blackened, decide (0 < ov.pathMarkCount),
      ov.pathMarkCount, some ov.currentLetter⟩ := by
  unfold Board.get
  rw [h]

/-- The shared mutation shape reports the matching error on an invalid target
and produces no board at all. -/
theorem mutate_invalid {b : Board} {r c : Nat} (f : CellOverlay → CellOverlay)
    (h : b.invalidTarget r c = true) :
    b.mutate r c f = .error (b.targetError r c) := by
  unfold Board.invalidTarget at h
  unfold Board.mutate Board.targetError
  cases hc : b.cellAt r c with
  | none => rfl
  | some cell =>
    cases cell with
    | blocked fill => rfl
    | letter ov =>
      rw [hc] at h
      exact Bool.noConfusion h

/-- A successful mutation on a Letter cell: the overlay is replaced by its
image under the field change and the captured pre-mutation overlay is pushed
onto the history stack. -/
theorem mutate_eq {b : Board} {r c : Nat} {row : List Cell} {ov : CellOverlay}
    (f : CellOverlay → CellOverlay) (hr : b.cells[r]? = some row)
    (hc : row[c]? = some (.letter ov)) :
    b.mutate r c f =
      .ok ⟨b.width, b.height, b.cells.set r (row.set c (.letter (f ov))),
        ⟨r, c, ov⟩ :: b.history⟩ := by
  unfold Board.mutate Board.cellAt Board.setOverlay
  rw [hr]
  simp only [Option.some_bind]
  rw [hc]

/-- Undo with a nonempty history pops the top entry and restores the recorded
overlay. -/
theorem undo_eq {b : Board} {e : HistoryEntry} {rest : List HistoryEntry}
    {row : List Cell} (h : b.history = e :: rest)
    (hr : b.cells[e.row]? = some row) :
    b.undo = ⟨b.width, b.height,
      b.cells.set e.row (row.set e.col (.letter e.prior)), rest⟩ := by
  obtain ⟨w, ht, cells, hist⟩ := b
  dsimp only at h hr ⊢
  subst h
  unfold Board.undo Board.setOverlay
  dsimp only
  rw [hr]

/-- Undo on an empty history stack is the identity. -/
theorem undo_nil {b : Board} (h : b.history = []) : b.undo = b := by
  unfold Board.undo
  rw [h]

/-- Undo exactly inverts a successful mutation. -/
theorem undo_mutate {b b2 : Board} {r c : Nat} {ov : CellOverlay}
    {f : CellOverlay → CellOverlay} (h : b.cellAt r c = some (.letter ov))
    (hm : b.mutate r c f = .ok b2) : b2.undo = b := by
  obtain ⟨row, hr, hc⟩ := cellAt_eq h
  rw [mutate_eq f hr hc, Except.ok.injEq] at hm
  subst hm
  rw [undo_eq rfl (list_getElem?_set_of_some _ _ _ _ hr)]
  dsimp only
  rw [List.set_set, List.set_set, list_set_of_getElem? row c _ hc,
    list_set_of_getElem? b.cells r row hr]

/-- After a successful mutation the target cell holds the changed overlay. -/
theorem mutate_cellAt_same {b b2 : Board} {r c : Nat} {ov : CellOverlay}
    {f : CellOverlay → CellOverlay} (h : b.cellAt r c = some (.letter ov))
    (hm : b.mutate r c f = .ok b2) :
    b2.cellAt r c = some (.letter (f ov)) := by
  obtain ⟨row, hr, hc⟩ := cellAt_eq h
  rw [mutate_eq f hr hc, Except.ok.injEq] at hm
  subst hm
  unfold Board.cellAt
  dsimp only
  rw [list_getElem?_set_of_some _ _ _ _ hr]
  simp only [Option.some_bind]
  exact list_getElem?_set_of_some _ _ _ _ hc

/-- C2: on a coordinate that is out of range or designates a Blocked cell,
each of blacken, markPath and changeLetter reports the corresponding error
(OutOfRangeError resp. NotInteractiveError) and produces no board value at
all, so the Board state — every overlay and the history stack — is left
untouched and the mutation never partially applies. -/
theorem mutations_on_invalid_target_error (b : Board) (r c : Nat) (ch : Char)
    (h : b.invalidTarget r c = true) :
    b.blacken r c = .error (b.targetError r c) ∧
    b.markPath r c = .error (b.targetError r c) ∧
    b.changeLetter r c ch = .error (b.targetError r c) :=
  ⟨mutate_invalid _ h, mutate_invalid _ h, mutate_invalid _ h⟩

/-- C2 witness: on the sample board, the Blocked cell (0,2) and the
out-of-range coordinate (9,9) are both rejected by all three mutations. -/
theorem mutations_on_invalid_target_error_witness :
    (exampleBoard.invalidTarget 0 2 = true ∧
      exampleBoard.blacken 0 2 = .error (exampleBoard.targetError 0 2) ∧
      exampleBoard.markPath 0 2 = .error (exampleBoard.targetError 0 2) ∧
      exampleBoard.changeLetter 0 2 'X' =
        .error (exampleBoard.targetError 0 2)) ∧
    (exampleBoard.invalidTarget 9 9 = true ∧
      exampleBoard.blacken 9 9 = .error (exampleBoard.targetError 9 9) ∧
      exampleBoard.markPath 9 9 = .error (exampleBoard.targetError 9 9) ∧
      exampleBoard.changeLetter 9 9 'X' =
        .error (exampleBoard.targetError 9 9)) :=
  ⟨⟨by decide, mutations_on_invalid_target_error exampleBoard 0 2 'X'
      (by decide)⟩,
    ⟨by decide, mutations_on_invalid_target_error exampleBoard 9 9 'X'
      (by decide)⟩⟩

/-- C4: on a Letter cell, blacken followed immediately by undo restores the
whole pre-call board (in particular the pre-call isBlackened value), and two
blacken calls in a row toggle the blackened flag back to its original
value. -/
theorem blacken_undo_involution (b : Board) (r c : Nat) (ov : CellOverlay)
    (b1 b2 : Board) (hcell : b.cellAt r c = some (.letter ov))
    (h1 : b.blacken r c = .ok b1) (h2 : b1.blacken r c = .ok b2) :
    b1.undo = b ∧
    (b.get r c).map (fun v => v.isBlackened) = .ok ov.blackened ∧
    (b1.get r c).map (fun v => v.isBlackened) = .ok (!ov.blackened) ∧
    (b2.get r c).map (fun v => v.isBlackened) = .ok ov.blackened := by
  have hcell1 := mutate_cellAt_same hcell h1
  have hcell2 := mutate_cellAt_same hcell1 h2
  refine ⟨undo_mutate hcell h1, ?_, ?_, ?_⟩
  · rw [get_of_cellAt_letter hcell]
    rfl
  · rw [get_of_cellAt_letter hcell1]
    rfl
  · rw [get_of_cellAt_letter hcell2]
    show Except.ok (!(!ov.blackened)) = Except.ok ov.blackened
    rw [Bool.not_not]

/-- C4 witness: the involution at cell (0,0) of the sample board. -/
theorem blacken_undo_involution_witness :
    exampleBoard.cellAt 0 0 = some (.letter ⟨false, 0, 'L'⟩) ∧
    exampleBoard.blacken 0 0 = .ok exampleBoardB1 ∧
    exampleBoardB1.blacken 0 0 = .ok exampleBoardB2 ∧
    (exampleBoardB1.undo = exampleBoard ∧
      (exampleBoard.get 0 0).map (fun v => v.isBlackened) = .ok false ∧
      (exampleBoardB1.get 0 0).map (fun v => v.isBlackened) = .ok (!false) ∧
      (exampleBoardB2.get 0 0).map (fun v => v.isBlackened) = .ok false) :=
  ⟨by decide, by decide, by decide,
    blacken_undo_involution exampleBoard 0 0 ⟨false, 0, 'L'⟩ exampleBoardB1
      exampleBoardB2 (by decide) (by decide) (by decide)⟩

/-! Lemmas about iterated marking and undo, and board freshness. -/

/-- Iterated undo is iteration of one function, so the first undo can be
peeled off either end. -/
theorem undoN_succ_comm (b : Board) (n : Nat) :
    b.undoN (n + 1) = b.undo.undoN n := by
  induction n generalizing b with
  | zero => rfl
  | succ m ih =>
    show (b.undoN (m + 1)).undo = (b.undo.undoN m).undo
    rw [ih b]

/-- From a Letter cell with overlay `ov`, marking `N` times succeeds, leaves
the cell with `ov.pathMarkCount + N` marks, and undoing `N` times restores
the starting board exactly. -/
theorem markPathN_ok {b : Board} {r c : Nat} {ov : CellOverlay}
    (h : b.cellAt r c = some (.letter ov)) (N : Nat) :
    ∃ bN, b.markPathN r c N = .ok bN ∧
      bN.cellAt r c =
        some (.letter ⟨ov.blackened, ov.pathMarkCount + N,
          ov.currentLetter⟩) ∧
      bN.undoN N = b := by
  induction N with
  | zero => exact ⟨b, rfl, h, rfl⟩
  | succ m ih =>
    obtain ⟨bm, hok, hcellm, hundo⟩ := ih
    obtain ⟨row, hr, hc⟩ := cellAt_eq hcellm
    have hm := mutate_eq
      (fun ov2 => { ov2 with pathMarkCount := ov2.pathMarkCount + 1 }) hr hc
    refine ⟨_, ?_, mutate_cellAt_same hcellm hm, ?_⟩
    · show (b.markPathN r c m).bind (fun b2 => b2.markPath r c) = _
      rw [hok]
      exact hm
    · rw [undoN_succ_comm, undo_mutate hcellm hm]
      exact hundo

/-- Marking `m + n` times is marking `m` times and then `n` more. -/
theorem markPathN_add (b : Board) (r c m n : Nat) :
    b.markPathN r c (m + n) =
      (b.markPathN r c m).bind (fun b2 => b2.markPathN r c n) := by
  induction n with
  | zero =>
    show b.markPathN r c m = _
    cases b.markPathN r c m <;> rfl
  | succ k ih =>
    show (b.markPathN r c (m + k)).bind _ = _
    rw [ih]
    cases b.markPathN r c m <;> rfl

/-- A board built from text has an empty history and only fresh (unblackened,
unmarked) Letter overlays. -/
theorem fromText_fresh_at {t : Text} {b : Board}
    (h : Board.fromText t = .ok b) :
    b.history = [] ∧
      ∀ r c ov, b.cellAt r c = some (.letter ov) →
        ov.blackened = false ∧ ov.pathMarkCount = 0 := by
  unfold Board.fromText at h
  split at h
  · exact Except.noConfusion h
  · split at h
    · exact Except.noConfusion h
    · cases hp : parseRows (splitLines t) <;> rw [hp] at h
      · exact Except.noConfusion h
      · rw [Except.ok.injEq] at h
        subst h
        refine ⟨rfl, ?_⟩
        intro r c ov hcell
        obtain ⟨row, hr, hc⟩ := cellAt_eq hcell
        exact parseRows_fresh hp row (List.getElem?_mem hr) ov
          (List.getElem?_mem hc)

/-- C3: from a fresh board, marking a Letter cell N times and undoing N times
returns the whole board — in particular that cell's markCount to 0 and
isMarkedForPath to false; after the marks, each single undo walks the count
back down one step at a time (after N - k undos the count is k); undo on the
fresh board's empty history is a no-op; and one further undo past the
restored start of history is also a no-op. -/
theorem markPath_undo_cancel (t : Text) (b : Board) (r c : Nat)
    (ov : CellOverlay) (N k : Nat) (hb : Board.fromText t = .ok b)
    (hcell : b.cellAt r c = some (.letter ov)) (hk : k ≤ N) :
    (b.markPathN r c N).map (fun bN => bN.undoN N) = .ok b ∧
    (b.get r c).map (fun v => (v.markCount, v.isMarkedForPath)) =
      .ok (0, false) ∧
    (b.markPathN r c N).map
        (fun bN => ((bN.undoN (N - k)).get r c).map (fun v => v.markCount)) =
      .ok (.ok k) ∧
    b.undo = b ∧
    (b.markPathN r c N).map (fun bN => bN.undoN (N + 1)) = .ok b := by
  obtain ⟨hhist, hfresh⟩ := fromText_fresh_at hb
  obtain ⟨hbl, hpm⟩ := hfresh r c ov hcell
  obtain ⟨bN, hok, hcellN, hundo⟩ := markPathN_ok hcell N
  obtain ⟨bk, hokk, hcellk, hundok⟩ := markPathN_ok hcell k
  have hNk : bk.markPathN r c (N - k) = .ok bN := by
    have hadd := markPathN_add b r c k (N - k)
    rw [Nat.add_sub_cancel' hk, hok, hokk] at hadd
    exact hadd.symm
  obtain ⟨bN2, hok2, hcell2, hundo2⟩ := markPathN_ok hcellk (N - k)
  have hbN2 : bN2 = bN := by
    rw [hok2, Except.ok.injEq] at hNk
    exact hNk
  have hstep : bN.undoN (N - k) = bk := by
    rw [← hbN2]
    exact hundo2
  refine ⟨?_, ?_, ?_, undo_nil hhist, ?_⟩
  · rw [hok]
    exact congrArg Except.ok hundo
  · rw [get_of_cellAt_letter hcell]
    show Except.ok (ov.pathMarkCount, decide (0 < ov.pathMarkCount)) =
      Except.ok ((0 : Nat), false)
    rw [hpm]
    rfl
  · rw [hok]
    refine congrArg Except.ok ?_
    show ((bN.undoN (N - k)).get r c).map (fun v => v.markCount) =
      Except.ok k
    rw [hstep, get_of_cellAt_letter hcellk]
    show Except.ok (ov.pathMarkCount + k) = Except.ok k
    rw [hpm, Nat.zero_add]
  · rw [hok]
    refine congrArg Except.ok ?_
    show (bN.undoN N).undo = b
    rw [hundo]
    exact undo_nil hhist

/-- C3 witness: mark (1,2) of the sample board three times, undo three times,
with the one-step walk checked after two undos. -/
theorem markPath_undo_cancel_witness :
    Board.fromText exampleText = .ok exampleBoard ∧
    exampleBoard.cellAt 1 2 = some (.letter ⟨false, 0, 'O'⟩) ∧
    1 ≤ 3 ∧
    ((exampleBoard.markPathN 1 2 3).map (fun bN => bN.undoN 3) =
        .ok exampleBoard ∧
      (exampleBoard.get 1 2).map (fun v => (v.markCount, v.isMarkedForPath)) =
        .ok (0, false) ∧
      (exampleBoard.markPathN 1 2 3).map
          (fun bN =>
            ((bN.undoN (3 - 1)).get 1 2).map (fun v => v.markCount)) =
        .ok (.ok 1) ∧
      exampleBoard.undo = exampleBoard ∧
      (exampleBoard.markPathN 1 2 3).map (fun bN => bN.undoN (3 + 1)) =
        .ok exampleBoard) :=
  ⟨by decide, by decide, by decide,
    markPath_undo_cancel exampleText exampleBoard 1 2 ⟨false, 0, 'O'⟩ 3 1
      (by decide) (by decide) (by decide)⟩

/-- C5: commitAndCheckSolution does not freeze or lock the board: the board it
leaves behind is the very board it was given (every overlay, every query
result and the history stack unchanged), every subsequent blacken, markPath,
changeLetter and undo call behaves exactly as before the commit, and the
verdict is computed from the current overlay snapshot, so a fresh commit
after further edits evaluates the then-current state. -/
theorem commit_frame {F : Type}
    (verify : List (Nat × Nat × CellOverlay) → Option F) (b : Board)
    (r c : Nat) (ch : Char) :
    (b.commit_and_check_solution verify).2 = b ∧
    (b.commit_and_check_solution verify).2.get r c = b.get r c ∧
    (b.commit_and_check_solution verify).2.history = b.history ∧
    (b.commit_and_check_solution verify).2.blacken r c = b.blacken r c ∧
    (b.commit_and_check_solution verify).2.markPath r c = b.markPath r c ∧
    (b.commit_and_check_solution verify).2.changeLetter r c ch =
      b.changeLetter r c ch ∧
    (b.commit_and_check_solution verify).2.undo = b.undo ∧
    (b.commit_and_check_solution verify).1 = verify b.snapshot :=
  ⟨rfl, rfl, rfl, rfl, rfl, rfl, rfl, rfl⟩

/-- C8: with a fixed Verifier, committing twice with no intervening mutation
yields the same verdict both times. -/
theorem commit_deterministic {F : Type}
    (verify : List (Nat × Nat × CellOverlay) → Option F) (b : Board) :
    (((b.commit_and_check_solution verify).2).commit_and_check_solution
        verify).1 =
      (b.commit_and_check_solution verify).1 :=
  rfl

/-- C9: get returns an owned, independent snapshot, never an alias into live
engine state: a presentation-layer rewrite of a held view lands only on the
held copy, while the engine board, all of its query results and its history
stack are exactly what they were. -/
theorem get_view_independent (b : Board) (r c r2 c2 : Nat)
    (v : BoardCellView) (f : BoardCellView → BoardCellView)
    (h : b.get r c = .ok v) :
    ((ViewSession.mk b v).mutateView f).board = b ∧
    ((ViewSession.mk b v).mutateView f).board.get r2 c2 = b.get r2 c2 ∧
    ((ViewSession.mk b v).mutateView f).board.history = b.history ∧
    ((ViewSession.mk b v).mutateView f).view = f v :=
  ⟨rfl, rfl, rfl, rfl⟩

/-- C9 witness: blacking out a held view of cell (0,0) of the sample board
touches neither the board nor the query result at (1,2). -/
theorem get_view_independent_witness :
    exampleBoard.get 0 0 = .ok ⟨true, false, false, 0, some 'L'⟩ ∧
    (((ViewSession.mk exampleBoard
          ⟨true, false, false, 0, some 'L'⟩).mutateView
            (fun v => { v with isBlackened := true })).board = exampleBoard ∧
      ((ViewSession.mk exampleBoard
          ⟨true, false, false, 0, some 'L'⟩).mutateView
            (fun v => { v with isBlackened := true })).board.get 1 2 =
        exampleBoard.get 1 2 ∧
      ((ViewSession.mk exampleBoard
          ⟨true, false, false, 0, some 'L'⟩).mutateView
            (fun v => { v with isBlackened := true })).board.history =
        exampleBoard.history ∧
      ((ViewSession.mk exampleBoard
          ⟨true, false, false, 0, some 'L'⟩).mutateView
            (fun v => { v with isBlackened := true })).view =
        ⟨true, true, false, 0, some 'L'⟩) :=
  ⟨by decide,
    get_view_independent exampleBoard 0 0 1 2 ⟨true, false, false, 0, some 'L'⟩
      (fun v => { v with isBlackened := true }) (by decide)⟩

/-- C10: the success sentinel of commit_and_check_solution is the null value:
the call returns none (null) exactly when the Verifier judges the committed
configuration a success, and the presentation layer's onClickCheckSolution
paints the success display exactly on null and the failure display exactly on
every non-null result. -/
theorem commit_null_success_sentinel {F : Type}
    (verify : List (Nat × Nat × CellOverlay) → Option F) (b : Board) :
    ((b.commit_and_check_solution verify).1 = none ↔
      verify b.snapshot = none) ∧
    (onClickCheckSolution (b.commit_and_check_solution verify).1 =
        ⟨some "result_success", "YAY"⟩ ↔ verify b.snapshot = none) ∧
    (onClickCheckSolution (b.commit_and_check_solution verify).1 =
        ⟨some "result_fail", "NAY"⟩ ↔ ¬verify b.snapshot = none) := by
  have hc : (b.commit_and_check_solution verify).1 = verify b.snapshot := rfl
  rw [hc]
  cases hv : verify b.snapshot with
  | none =>
    refine ⟨Iff.rfl, ?_, ?_⟩
    · exact ⟨fun _ => rfl, fun _ => rfl⟩
    · constructor
      · intro hcontra
        have hd : (⟨some "result_success", "YAY"⟩ : ResultDisplay) =
            ⟨some "result_fail", "NAY"⟩ := hcontra
        exact absurd hd (by decide)
      · intro hn
        exact absurd rfl hn
  | some d =>
    refine ⟨Iff.rfl, ?_, ?_⟩
    · constructor
      · intro hcontra
        have hd : (⟨some "result_fail", "NAY"⟩ : ResultDisplay) =
            ⟨some "result_success", "YAY"⟩ := hcontra
        exact absurd hd (by decide)
      · intro hn
        exact Option.noConfusion hn
    · exact ⟨fun _ hn => Option.noConfusion hn, fun _ => rfl⟩

/-- C7: the concrete scenario on the text "LO_\nL_O": width 3, height 2, six
cells of which four are Letter cells reading L, O, L, O and two are Blocked;
blacken(0,0) makes get(0,0) report isBlackened, a following undo clears it
again; blacken(0,2) on the Blocked cell fails with NotInteractiveError while
get(0,2) keeps reporting the cell as non-interactive. -/
theorem concrete_scenario_LO :
    Board.fromText exampleText = .ok exampleBoard ∧
    exampleBoard.width = 3 ∧
    exampleBoard.height = 2 ∧
    exampleBoard.cells.flatten.length = 6 ∧
    (exampleBoard.cells.flatten.filter Cell.isLetter).length = 4 ∧
    exampleBoard.cells.flatten.filterMap Cell.letterChar =
      ['L', 'O', 'L', 'O'] ∧
    (exampleBoard.cells.flatten.filter Cell.isBlocked).length = 2 ∧
    (exampleBoard.blacken 0 0).map
        (fun b => (b.get 0 0).map (fun v => v.isBlackened)) =
      .ok (.ok true) ∧
    (exampleBoard.blacken 0 0).map
        (fun b => (b.undo.get 0 0).map (fun v => v.isBlackened)) =
      .ok (.ok false) ∧
    exampleBoard.blacken 0 2 = .error .notInteractive ∧
    (exampleBoard.get 0 2).map (fun v => v.isInteractive) = .ok false := by
  decide

end Lok
